import Mathlib

/-!
Verification of the logit_bench measurement harness
(`bench/logit_bench.cpp`) against its natural-language specification.

The C++ source is shallowly embedded below:
* pure helpers (`make_message`, `get_env_size_t`, the per-thread
  message-distribution loop, the throughput guard) become Lean functions;
* the controlling thread of `run_workload` and the body of
  `execute_scenario` become trace-producing functions over an abstract
  event alphabet;
* the start barrier of `run_workload` becomes a small-step transition
  system over the shared state (`ready`, `start_flag`, the per-thread
  phase), and the temporal claims are invariants of its reachable states;
* `LatencyRecorder` (declared in `LatencyRecorder.hpp`, which is not part
  of the sources here) is modelled from the specification.
-/

namespace LogitBench

/-- Embedding of `make_message` (logit_bench.cpp:28-32): an empty string
for `bytes == 0`, otherwise `bytes` copies of the character
`'A' + index % 26`.  `'A'` is code point 65. -/
def make_message (bytes index : Nat) : String :=
  if bytes = 0 then "" else String.mk (List.replicate bytes (Char.ofNat (65 + index % 26)))

/-- Embedding of `get_env_size_t` (logit_bench.cpp:34-43).  The
environment lookup is `env : Option String` (`getenv` returning null is
`none`); `std::stoull` is abstracted as `stoull : String → Option Nat`,
where `none` models the parse throwing (the `catch (...)` branch). -/
def get_env_size_t (stoull : String → Option Nat) (env : Option String) (def_ : Nat) : Nat :=
  match env with
  | none => def_
  | some v =>
    match stoull v with
    | some n => n
    | none => def_

/-- Embedding of the message-distribution loop of `run_workload`
(logit_bench.cpp:66-73): `per_thread[i] = base + (rem ? 1 : 0)` with
`rem` decremented while nonzero.  The loop is over `k` remaining
iterations with current remainder `rem`. -/
def perThreadLoop (base : Nat) : Nat → Nat → List Nat
  | 0, _ => []
  | k + 1, rem => (base + (if rem ≠ 0 then 1 else 0)) :: perThreadLoop base k (rem - 1)

/-- The full `per_thread` vector built by logit_bench.cpp:67-73 from
`base = total_messages / producers` and `rem = total_messages % producers`. -/
def per_thread (total producers : Nat) : List Nat :=
  perThreadLoop (total / producers) producers (total % producers)

/-- Externally visible actions of the controlling thread of
`run_workload` (logit_bench.cpp:53-115): spawning and joining producer
threads, waiting for all of them to signal readiness, reading the steady
clock, setting the start flag, and flushing the adapter. -/
inductive Event where
  | spawn (i : Nat)
  | waitAllReady
  | readClock (t : Nat)
  | setStartFlag
  | join (i : Nat)
  | flush
  deriving DecidableEq

/-- Embedding of the controlling thread of `run_workload`
(logit_bench.cpp:53-115) as the sequence of actions it performs together
with the nanosecond duration it returns.  `total` and `record` are
forwarded to the producer threads and do not influence the controller
itself; `c0` and `c1` are the values `steady_clock::now()` yields at the
two capture points (lines 104 and 113; the clock is monotone, so
`c0 ≤ c1` in a real execution and `t1 - t0` is the `Nat` difference). -/
def run_workload (producers total : Nat) (record measure : Bool) (c0 c1 : Nat) :
    List Event × Nat :=
  if producers = 0 then
    ([Event.flush], 0)
  else
    let trace :=
      ((List.range producers).map Event.spawn)
        ++ [Event.waitAllReady]
        ++ (if measure then [Event.readClock c0] else [])
        ++ [Event.setStartFlag]
        ++ ((List.range producers).map Event.join)
        ++ [Event.flush]
        ++ (if measure then [Event.readClock c1] else [])
    (trace, if measure then c1 - c0 else 0)

/-- Embedding of the throughput computation of `execute_scenario`
(logit_bench.cpp:164-168) over exact rationals (the C++ code divides
`double`s; what is modelled is the guarded dataflow: divide
`total_messages` by the duration in seconds only when `dur.count() > 0`,
otherwise report `0`).  `dur_ns` is the signed count `dur.count()`. -/
def throughput (total : Nat) (dur_ns : Int) : ℚ :=
  if 0 < dur_ns then (total : ℚ) / ((dur_ns : ℚ) / 1000000000) else 0

/-- Core actions of `execute_scenario` (logit_bench.cpp:123-170),
console output omitted. -/
inductive ScenarioPhase where
  | constructRecorder (capacity : Nat)
  | prepareAdapter
  | runWorkloadCall (total : Nat) (record measure : Bool)
  | finalizeRecorder
  deriving DecidableEq

/-- Is a `ScenarioPhase` one of the two `run_workload` invocations? -/
def ScenarioPhase.isWorkloadCall : ScenarioPhase → Bool
  | ScenarioPhase.runWorkloadCall _ _ _ => true
  | _ => false

/-- The result record `execute_scenario` assembles (logit_bench.cpp:117-121,
169): throughput and measured duration (the latency summary itself lives
in the recorder model). -/
structure ScenarioResult where
  thr : ℚ
  duration_ns : Nat
  deriving DecidableEq

/-- Embedding of `execute_scenario` (logit_bench.cpp:123-170): construct
a recorder sized to `total`, prepare the adapter, run the warm-up pass
(`warmup` messages, no recording, no duration), run the measured pass
(`total` messages, recording and duration on), finalize, and compute
throughput from the measured duration.  `w0 w1` and `c0 c1` are the
clock readings of the two `run_workload` calls. -/
def execute_scenario (producers warmup total w0 w1 c0 c1 : Nat) :
    List ScenarioPhase × ScenarioResult :=
  let dur := (run_workload producers total true true c0 c1).2
  let phases :=
    [ScenarioPhase.constructRecorder total, ScenarioPhase.prepareAdapter,
     ScenarioPhase.runWorkloadCall warmup false false,
     ScenarioPhase.runWorkloadCall total true true,
     ScenarioPhase.finalizeRecorder]
  (phases, ⟨throughput total (dur : Int), dur⟩)

/-- A sample slot of the latency recorder: start and end timestamps in
nanoseconds, `none` when not captured. -/
structure Slot where
  start_ns : Option Nat
  end_ns : Option Nat
  deriving DecidableEq

/-- A correlation token: slot index plus recording flag. -/
structure Token where
  slot : Nat
  recording : Bool
  deriving DecidableEq

/-- Modelled from the spec: `LatencyRecorder` is declared in
`LatencyRecorder.hpp`, which is not among the sources here.  The spec
describes a fixed array of sample slots pre-allocated at construction
plus a monotonic atomic slot counter (§3 Sample Slot, §4.1). -/
structure LatencyRecorder where
  slots : List Slot
  next : Nat
  deriving DecidableEq

/-- Modelled from the spec: `Construct(capacity)` pre-allocates
`capacity` empty sample slots (§4.1). -/
def LatencyRecorder.create (capacity : Nat) : LatencyRecorder :=
  ⟨List.replicate capacity ⟨none, none⟩, 0⟩

/-- Modelled from the spec: `begin(record_latency)` claims the next slot
and captures the start timestamp only when `record_latency` is true;
when it is false no timestamp is captured and no slot is consumed, so
warm-up leaves the recorder untouched (§4.1 begin, §4.3 "warm-up never
calls `begin` with recording enabled, so no slots are consumed"). -/
def LatencyRecorder.claim (r : LatencyRecorder) (record : Bool) (now : Nat) :
    LatencyRecorder × Token :=
  if record then
    (⟨r.slots.set r.next ⟨some now, none⟩, r.next + 1⟩, ⟨r.next, true⟩)
  else
    (r, ⟨0, false⟩)

/-- Modelled from the spec: `complete(token)` is a no-op when the
token's recording flag is false, otherwise stores the end timestamp into
the token's slot (§4.1 complete). -/
def LatencyRecorder.complete (r : LatencyRecorder) (tok : Token) (now : Nat) :
    LatencyRecorder :=
  if tok.recording then
    match r.slots.get? tok.slot with
    | some s => ⟨r.slots.set tok.slot ⟨s.start_ns, some now⟩, r.next⟩
    | none => r
  else r

/-- The duration a slot contributes to finalize: `end − start` when both
timestamps are present, nothing otherwise (spec §4.1 finalize). -/
def slotDuration (s : Slot) : Option Nat :=
  match s.start_ns, s.end_ns with
  | some a, some b => some (b - a)
  | _, _ => none

/-- The sample durations finalize collects (spec §4.1): one entry per
slot that has both timestamps set. -/
def LatencyRecorder.durations (r : LatencyRecorder) : List Nat :=
  r.slots.filterMap slotDuration

/-- One iteration of a producer's loop (logit_bench.cpp:93-96) with the
sink completing the token: `begin(record)` then `complete(token)`.  `a`
and `b` are the clock values at the two capture points. -/
def logOnce (r : LatencyRecorder) (record : Bool) (a b : Nat) : LatencyRecorder :=
  let rt := r.claim record a
  rt.1.complete rt.2 b

/-- `n` producer iterations in sequence.  Concurrent producers only
permute the order in which slot indices are claimed, which does not
change how many slots end up completed, so the sequential model settles
the sample-count claim. -/
def runPass (r : LatencyRecorder) (record : Bool) (a b : Nat) : Nat → LatencyRecorder
  | 0 => r
  | n + 1 => runPass (logOnce r record a b) record a b n

/-- Phase of one producer thread inside `run_workload`
(logit_bench.cpp:85-97): before incrementing `ready`, waiting on
`start_flag`, or released with `k` log iterations performed. -/
inductive PPhase where
  | beforeReady
  | awaitingStart
  | running (k : Nat)
  deriving DecidableEq

/-- Shared state of the start barrier of `run_workload`
(logit_bench.cpp:76-107): the `ready` counter, the `start_flag`, whether
`t0` has been captured, and each producer's phase. -/
structure BarrierState (p : Nat) where
  ready : Nat
  start_flag : Bool
  t0_captured : Bool
  phase : Fin p → PPhase

/-- Initial barrier state: `ready = 0`, flag down, `t0` not captured,
every producer before its `++ready`. -/
def initBarrier (p : Nat) : BarrierState p :=
  ⟨0, false, false, fun _ => PPhase.beforeReady⟩

/-- Small-step semantics of the barrier.  Every mutation of the shared
state in logit_bench.cpp:84-107 happens under `start_mx`, so each
critical section is one atomic step: a producer incrementing `ready`
(lines 88-90), the controller observing `ready == producers`, capturing
`t0` when `measure` and raising the flag (lines 102-106), a producer
waking up once the flag is up (line 91), and a producer performing one
`begin`/`log` iteration of its quota (lines 93-96). -/
inductive BStep (p : Nat) (measure : Bool) (quota : Fin p → Nat) :
    BarrierState p → BarrierState p → Prop where
  | signalReady (s : BarrierState p) (i : Fin p)
      (h : s.phase i = PPhase.beforeReady) :
      BStep p measure quota s
        ⟨s.ready + 1, s.start_flag, s.t0_captured,
         Function.update s.phase i PPhase.awaitingStart⟩
  | releaseAll (s : BarrierState p) (hready : s.ready = p)
      (hflag : s.start_flag = false) :
      BStep p measure quota s
        ⟨s.ready, true, if measure then true else s.t0_captured, s.phase⟩
  | wake (s : BarrierState p) (i : Fin p)
      (h : s.phase i = PPhase.awaitingStart) (hflag : s.start_flag = true) :
      BStep p measure quota s
        ⟨s.ready, s.start_flag, s.t0_captured,
         Function.update s.phase i (PPhase.running 0)⟩
  | logMsg (s : BarrierState p) (i : Fin p) (k : Nat)
      (h : s.phase i = PPhase.running k) (hk : k < quota i) :
      BStep p measure quota s
        ⟨s.ready, s.start_flag, s.t0_captured,
         Function.update s.phase i (PPhase.running (k + 1))⟩

/-- The states `run_workload`'s barrier can reach from the initial
state. -/
def BReachable (p : Nat) (measure : Bool) (quota : Fin p → Nat)
    (s : BarrierState p) : Prop :=
  Relation.ReflTransGen (BStep p measure quota) (initBarrier p) s

/-- Number of producers that have already incremented `ready`. -/
def readyCount (p : Nat) (s : BarrierState p) : Nat :=
  (Finset.univ.filter fun i => s.phase i ≠ PPhase.beforeReady).card

/-- Inductive invariant of the barrier: `ready` counts the producers
past their increment; the flag is raised only once all producers have
signalled (with `t0` captured when measuring); and a producer runs its
loop only after the flag is up. -/
def BarrierInv (p : Nat) (measure : Bool) (s : BarrierState p) : Prop :=
  s.ready = readyCount p s
  ∧ (s.start_flag = true → s.ready = p ∧ (measure = true → s.t0_captured = true))
  ∧ (∀ i k, s.phase i = PPhase.running k → s.start_flag = true)

/-- First intermediate state of the concrete one-producer barrier run
used to exhibit a reachable logging state. -/
def c3S1 : BarrierState 1 :=
  ⟨0 + 1, false, false,
   Function.update (fun _ => PPhase.beforeReady) (0 : Fin 1) PPhase.awaitingStart⟩

/-- Second intermediate state: flag raised, `t0` captured. -/
def c3S2 : BarrierState 1 :=
  ⟨0 + 1, true, if true then true else false, c3S1.phase⟩

/-- Final state of the concrete run: the producer is in its log loop. -/
def c3S3 : BarrierState 1 :=
  ⟨0 + 1, true, if true then true else false,
   Function.update c3S1.phase (0 : Fin 1) (PPhase.running 0)⟩

end LogitBench

namespace LogitBench

theorem perThreadLoop_length (base k rem : Nat) : (perThreadLoop base k rem).length = k := by
  induction k generalizing rem with
  | zero => rfl
  | succ k ih => simp [perThreadLoop, ih]

theorem perThreadLoop_sum (base : Nat) :
    ∀ k rem, (perThreadLoop base k rem).sum = k * base + min rem k := by
  intro k
  induction k with
  | zero => intro rem; simp [perThreadLoop]
  | succ k ih =>
    intro rem
    cases rem with
    | zero => simp [perThreadLoop, ih 0, Nat.succ_mul]; ring
    | succ r =>
      have h := ih r
      simp only [perThreadLoop, List.sum_cons, Nat.succ_sub_one, h]
      rw [if_pos (Nat.succ_ne_zero r), Nat.succ_mul]
      omega

theorem perThreadLoop_getD (base : Nat) :
    ∀ k rem i, i < k →
      (perThreadLoop base k rem).getD i 0 = base + (if i < rem then 1 else 0) := by
  intro k
  induction k with
  | zero => intro rem i h; omega
  | succ k ih =>
    intro rem i h
    cases i with
    | zero =>
      simp only [perThreadLoop, List.getD_cons_zero]
      by_cases hr : rem = 0
      · simp [hr]
      · rw [if_pos hr, if_pos (Nat.pos_of_ne_zero hr)]
    | succ i =>
      simp only [perThreadLoop, List.getD_cons_succ]
      rw [ih (rem - 1) i (by omega)]
      congr 1
      by_cases hr : i < rem - 1 <;> by_cases hr2 : i + 1 < rem <;> simp [hr, hr2] <;> omega

/-- C1: for `producers ≥ 1`, `run_workload` gives each of the
`producers` threads `base = total / producers` messages, with exactly
the first `total % producers` threads receiving one extra message, and
the per-thread shares sum to `total` exactly. -/
theorem c1_per_thread_distribution (total producers : Nat) (h : 1 ≤ producers) :
    (per_thread total producers).length = producers
    ∧ (∀ i, i < producers →
        (per_thread total producers).getD i 0
          = total / producers + (if i < total % producers then 1 else 0))
    ∧ (per_thread total producers).sum = total := by
  refine ⟨perThreadLoop_length _ _ _, fun i hi => perThreadLoop_getD _ _ _ _ hi, ?_⟩
  rw [per_thread, perThreadLoop_sum]
  have hmod : total % producers < producers := Nat.mod_lt _ (by omega)
  rw [min_eq_left (Nat.le_of_lt hmod)]
  exact Nat.div_add_mod total producers

/-- Witness for C1 at `total = 10`, `producers = 3`. -/
theorem c1_witness :
    (per_thread 10 3).length = 3 ∧ (per_thread 10 3).sum = 10 :=
  ⟨(c1_per_thread_distribution 10 3 (by decide)).1,
   (c1_per_thread_distribution 10 3 (by decide)).2.2⟩

/-- C9: the message payload is a pure function of the thread index and
`message_bytes`: its character list is exactly `bytes` copies of the
character `'A' + index % 26` (empty for `bytes = 0`), so its length is
`bytes` and two runs of the same scenario produce identical payloads. -/
theorem c9_make_message_deterministic (bytes index : Nat) :
    (make_message bytes index).data
        = List.replicate bytes (Char.ofNat (65 + index % 26))
    ∧ (make_message bytes index).length = bytes := by
  have hdata : (make_message bytes index).data
      = List.replicate bytes (Char.ofNat (65 + index % 26)) := by
    unfold make_message
    by_cases h : bytes = 0
    · subst h; rfl
    · rw [if_neg h]
  refine ⟨hdata, ?_⟩
  show (make_message bytes index).data.length = bytes
  rw [hdata, List.length_replicate]

/-- C10: `get_env_size_t` returns the default when the variable is
unset or `stoull` throws, and the parsed value otherwise; as a total
function these are its only outcomes. -/
theorem c10_get_env_size_t (stoull : String → Option Nat) (env : Option String)
    (d : Nat) :
    get_env_size_t stoull env d = (env.bind stoull).getD d
    ∧ (env = none → get_env_size_t stoull env d = d)
    ∧ (∀ v, env = some v → stoull v = none → get_env_size_t stoull env d = d)
    ∧ (∀ v n, env = some v → stoull v = some n → get_env_size_t stoull env d = n) := by
  refine ⟨?_, ?_, ?_, ?_⟩
  · cases env with
    | none => rfl
    | some v =>
      cases hv : stoull v with
      | none => simp [get_env_size_t, hv]
      | some n => simp [get_env_size_t, hv]
  · intro h; subst h; rfl
  · intro v hv hp; subst hv; simp [get_env_size_t, hp]
  · intro v n hv hp; subst hv; simp [get_env_size_t, hp]

/-- Witness for C10 at a parser that accepts `"42"` and rejects
everything else. -/
theorem c10_witness :
    get_env_size_t (fun v => if v = "42" then some 42 else none) (some "42") 7 = 42 :=
  (c10_get_env_size_t (fun v => if v = "42" then some 42 else none) (some "42") 7).2.2.2
    "42" 42 rfl (by simp)

/-- C7: `run_workload` returns a zero duration whenever
`measure_duration` is false, for every producer count, message total,
recording flag and clock values. -/
theorem c7_zero_duration_unmeasured (producers total : Nat) (record : Bool)
    (c0 c1 : Nat) :
    (run_workload producers total record false c0 c1).2 = 0 := by
  unfold run_workload
  by_cases h : producers = 0 <;> simp [h]

/-- C4: with `producers = 0`, `run_workload` spawns no threads, flushes
the adapter exactly once, and returns a zero duration, for every value
of the other arguments. -/
theorem c4_zero_producers (total : Nat) (record measure : Bool) (c0 c1 : Nat) :
    (run_workload 0 total record measure c0 c1).1 = [Event.flush]
    ∧ (run_workload 0 total record measure c0 c1).1.count Event.flush = 1
    ∧ (∀ i, Event.spawn i ∉ (run_workload 0 total record measure c0 c1).1)
    ∧ (run_workload 0 total record measure c0 c1).2 = 0 := by
  refine ⟨rfl, rfl, ?_, rfl⟩
  intro i hmem
  rw [show (run_workload 0 total record measure c0 c1).1 = [Event.flush] from rfl] at hmem
  simp at hmem

/-- Witness for C4 at `total = 10`, both flags on, clocks `0` and `5`. -/
theorem c4_witness :
    (run_workload 0 10 true true 0 5).1 = [Event.flush]
    ∧ Event.spawn 3 ∉ (run_workload 0 10 true true 0 5).1
    ∧ (run_workload 0 10 true true 0 5).2 = 0 :=
  ⟨(c4_zero_producers 10 true true 0 5).1,
   (c4_zero_producers 10 true true 0 5).2.2.1 3,
   (c4_zero_producers 10 true true 0 5).2.2.2⟩

/-- C5: with `producers ≥ 1` and `measure_duration = true`, the
controller trace of `run_workload` ends with the flush followed
immediately by the capture of `t1`, and every join precedes the flush:
the adapter is drained after all producers are joined and before the end
timestamp, so the measured duration includes the drain. -/
theorem c5_flush_before_t1 (producers total : Nat) (record : Bool) (c0 c1 : Nat)
    (h : 1 ≤ producers) :
    ∃ l, (run_workload producers total record true c0 c1).1
        = l ++ [Event.flush, Event.readClock c1]
      ∧ (∀ i, i < producers → Event.join i ∈ l)
      ∧ Event.flush ∉ l := by
  refine ⟨((List.range producers).map Event.spawn)
      ++ [Event.waitAllReady] ++ [Event.readClock c0] ++ [Event.setStartFlag]
      ++ ((List.range producers).map Event.join), ?_, ?_, ?_⟩
  · unfold run_workload
    rw [if_neg (by omega)]
    simp [List.append_assoc]
  · intro i hi
    simp only [List.mem_append, List.mem_map, List.mem_range]
    exact Or.inr ⟨i, hi, rfl⟩
  · intro hmem
    simp only [List.mem_append, List.mem_map, List.mem_range,
      List.mem_singleton] at hmem
    rcases hmem with ((((⟨i, _, hbad⟩ | hbad) | hbad) | hbad) | ⟨i, _, hbad⟩) <;>
      exact Event.noConfusion hbad

/-- Witness for C5 at `producers = 2`, clocks `3` and `9`. -/
theorem c5_witness :
    ∃ l, (run_workload 2 10 true true 3 9).1
        = l ++ [Event.flush, Event.readClock 9]
      ∧ (∀ i, i < 2 → Event.join i ∈ l)
      ∧ Event.flush ∉ l :=
  c5_flush_before_t1 2 10 true 3 9 (by decide)

/-- C6: `execute_scenario` computes throughput from the measured
duration via the guarded division: when the duration count is strictly
positive the throughput times the duration in seconds equals the
message total (and the divisor is nonzero, so no division by zero or a
negative duration occurs), and otherwise the throughput is exactly
zero. -/
theorem c6_throughput_guard (producers warmup total w0 w1 c0 c1 : Nat)
    (dur_ns : Int) :
    (execute_scenario producers warmup total w0 w1 c0 c1).2.thr
        = throughput total ((run_workload producers total true true c0 c1).2 : Int)
    ∧ (0 < dur_ns →
        throughput total dur_ns * ((dur_ns : ℚ) / 1000000000) = (total : ℚ)
        ∧ ((dur_ns : ℚ) / 1000000000) ≠ 0)
    ∧ (dur_ns ≤ 0 → throughput total dur_ns = 0) := by
  refine ⟨rfl, ?_, ?_⟩
  · intro hpos
    have hud : ((dur_ns : ℚ) / 1000000000) ≠ 0 := by
      have : (dur_ns : ℚ) ≠ 0 := by
        exact_mod_cast Int.ne_of_gt hpos
      positivity
    refine ⟨?_, hud⟩
    rw [throughput, if_pos hpos]
    exact div_mul_cancel₀ _ hud
  · intro hle
    rw [throughput, if_neg (by omega)]

/-- Witness for C6 at `total = 5`, `dur_ns = 2`. -/
theorem c6_witness :
    throughput 5 2 * ((2 : ℚ) / 1000000000) = (5 : ℚ)
    ∧ ((2 : ℚ) / 1000000000) ≠ 0 :=
  (c6_throughput_guard 1 0 5 0 0 0 0 2).2.1 (by decide)

/-- C8: `execute_scenario` first constructs a fresh recorder sized to
`total`, performs exactly two `run_workload` calls — the warm-up with
`warmup` messages and both flags off, then the measured pass with
`total` messages and both flags on — and finalizes last, after the
measured pass. -/
theorem c8_scenario_sequencing (producers warmup total w0 w1 c0 c1 : Nat) :
    (execute_scenario producers warmup total w0 w1 c0 c1).1.head?
        = some (ScenarioPhase.constructRecorder total)
    ∧ (execute_scenario producers warmup total w0 w1 c0 c1).1.filter
          ScenarioPhase.isWorkloadCall
        = [ScenarioPhase.runWorkloadCall warmup false false,
           ScenarioPhase.runWorkloadCall total true true]
    ∧ (execute_scenario producers warmup total w0 w1 c0 c1).1.getLast?
        = some ScenarioPhase.finalizeRecorder :=
  ⟨rfl, rfl, rfl⟩

theorem logOnce_false (r : LatencyRecorder) (a b : Nat) : logOnce r false a b = r :=
  rfl

theorem runPass_false (a b : Nat) :
    ∀ n (r : LatencyRecorder), runPass r false a b n = r := by
  intro n
  induction n with
  | zero => intro r; rfl
  | succ n ih => intro r; rw [runPass, logOnce_false]; exact ih r

theorem replicate_append_set {α : Type} (x y v : α) (t : List α) :
    ∀ k, (List.replicate k x ++ y :: t).set k v = List.replicate k x ++ v :: t := by
  intro k
  induction k with
  | zero => rfl
  | succ k ih => simp only [List.replicate_succ, List.cons_append, List.set_cons_succ, ih]

theorem replicate_append_get {α : Type} (x y : α) (t : List α) :
    ∀ k, (List.replicate k x ++ y :: t).get? k = some y := by
  intro k
  induction k with
  | zero => rfl
  | succ k ih => simp only [List.replicate_succ, List.cons_append, List.get?_cons_succ, ih]

theorem logOnce_true_at (a b k m : Nat) :
    logOnce ⟨List.replicate k (Slot.mk (some a) (some b))
        ++ List.replicate (m + 1) (Slot.mk none none), k⟩ true a b
      = ⟨List.replicate (k + 1) (Slot.mk (some a) (some b))
          ++ List.replicate m (Slot.mk none none), k + 1⟩ := by
  rw [logOnce]
  rw [show (List.replicate (m + 1) (Slot.mk none none))
      = Slot.mk none none :: List.replicate m (Slot.mk none none) from rfl]
  rw [LatencyRecorder.claim, if_pos rfl]
  simp only
  rw [replicate_append_set]
  rw [LatencyRecorder.complete, if_pos rfl]
  simp only [replicate_append_get]
  rw [replicate_append_set]
  rw [show (List.replicate (k + 1) (Slot.mk (some a) (some b)))
      = List.replicate k (Slot.mk (some a) (some b)) ++ [Slot.mk (some a) (some b)]
    from List.replicate_succ' _ _]
  rw [List.append_assoc]
  rfl

theorem runPass_true_replicate (a b : Nat) :
    ∀ n k m, n ≤ m →
      runPass ⟨List.replicate k (Slot.mk (some a) (some b))
          ++ List.replicate m (Slot.mk none none), k⟩ true a b n
        = ⟨List.replicate (k + n) (Slot.mk (some a) (some b))
            ++ List.replicate (m - n) (Slot.mk none none), k + n⟩ := by
  intro n
  induction n with
  | zero => intro k m _; rfl
  | succ n ih =>
    intro k m hnm
    obtain ⟨m', rfl⟩ : ∃ m', m = m' + 1 := ⟨m - 1, by omega⟩
    rw [runPass, logOnce_true_at, ih (k + 1) m' (by omega)]
    have h1 : k + 1 + n = k + (n + 1) := by omega
    have h2 : m' - n = m' + 1 - (n + 1) := by omega
    rw [h1, h2]

theorem durations_replicate_full (a b : Nat) :
    ∀ n k, (LatencyRecorder.durations
        ⟨List.replicate n (Slot.mk (some a) (some b)), k⟩).length = n := by
  intro n
  induction n with
  | zero => intro k; rfl
  | succ n ih =>
    intro k
    simp only [LatencyRecorder.durations, List.replicate_succ, List.filterMap_cons]
    rw [show slotDuration (Slot.mk (some a) (some b)) = some (b - a) from rfl]
    simpa [LatencyRecorder.durations] using ih k

/-- C2: on a fresh recorder of capacity `total`, running a warm-up pass
of any `warmup` messages with recording off and then the measured pass
of `total` messages with recording on leaves exactly `total` completed
samples for finalize, independent of `warmup` — warm-up never enables
recording, so it leaves the recorder untouched. -/
theorem c2_warmup_isolation (warmup total wa wb a b : Nat) :
    (LatencyRecorder.durations
        (runPass (runPass (LatencyRecorder.create total) false wa wb warmup)
          true a b total)).length = total := by
  rw [runPass_false]
  rw [show LatencyRecorder.create total
      = ⟨List.replicate 0 (Slot.mk (some a) (some b))
          ++ List.replicate total (Slot.mk none none), 0⟩ from rfl]
  rw [runPass_true_replicate a b total 0 total (Nat.le_refl total)]
  simp only [Nat.zero_add, Nat.sub_self, List.replicate_zero, List.append_nil]
  exact durations_replicate_full a b total 0

theorem filter_update_stable {p : Nat} (f : Fin p → PPhase) (i : Fin p) (v : PPhase)
    (hf : f i ≠ PPhase.beforeReady) (hv : v ≠ PPhase.beforeReady) :
    (Finset.univ.filter fun j => Function.update f i v j ≠ PPhase.beforeReady)
      = Finset.univ.filter fun j => f j ≠ PPhase.beforeReady := by
  ext j
  simp only [Finset.mem_filter, Finset.mem_univ, true_and]
  by_cases hj : j = i
  · subst hj; simp [Function.update_same, hf, hv]
  · rw [Function.update_apply, if_neg hj]

theorem filter_update_fresh {p : Nat} (f : Fin p → PPhase) (i : Fin p) (v : PPhase)
    (hf : f i = PPhase.beforeReady) (hv : v ≠ PPhase.beforeReady) :
    (Finset.univ.filter fun j => Function.update f i v j ≠ PPhase.beforeReady)
      = insert i (Finset.univ.filter fun j => f j ≠ PPhase.beforeReady) := by
  ext j
  simp only [Finset.mem_filter, Finset.mem_univ, true_and, Finset.mem_insert]
  by_cases hj : j = i
  · subst hj; simp [Function.update_same, hv]
  · rw [Function.update_apply, if_neg hj]
    constructor
    · intro h; exact Or.inr h
    · rintro (h | h)
      · exact absurd h hj
      · exact h

theorem barrierInv_init (p : Nat) (measure : Bool) :
    BarrierInv p measure (initBarrier p) := by
  refine ⟨?_, ?_, ?_⟩
  · simp [initBarrier, readyCount]
  · intro h; exact absurd h (by simp [initBarrier])
  · intro i k h; exact absurd h (by simp [initBarrier])

theorem barrierInv_step (p : Nat) (measure : Bool) (quota : Fin p → Nat)
    (s s' : BarrierState p) (hinv : BarrierInv p measure s)
    (hstep : BStep p measure quota s s') : BarrierInv p measure s' := by
  obtain ⟨hcount, hflag, hrun⟩ := hinv
  cases hstep with
  | signalReady i h =>
    have hnot : i ∉ Finset.univ.filter fun j => s.phase j ≠ PPhase.beforeReady := by
      simp [h]
    refine ⟨?_, ?_, ?_⟩
    · show s.ready + 1
        = (Finset.univ.filter fun j =>
            Function.update s.phase i PPhase.awaitingStart j ≠ PPhase.beforeReady).card
      rw [filter_update_fresh s.phase i PPhase.awaitingStart h (by simp)]
      rw [Finset.card_insert_of_not_mem hnot]
      rw [hcount]
      rfl
    · intro hsf
      exfalso
      have hsf' : s.start_flag = true := hsf
      obtain ⟨hrp, _⟩ := hflag hsf'
      have huniv : (Finset.univ.filter fun j => s.phase j ≠ PPhase.beforeReady)
          = Finset.univ := by
        apply Finset.eq_univ_of_card
        rw [← readyCount, ← hcount, hrp, Fintype.card_fin]
      have hmem : i ∈ Finset.univ.filter fun j => s.phase j ≠ PPhase.beforeReady := by
        rw [huniv]; exact Finset.mem_univ i
      exact hnot hmem
    · intro j k hj
      have hj' : Function.update s.phase i PPhase.awaitingStart j = PPhase.running k := hj
      by_cases hji : j = i
      · subst hji
        rw [Function.update_same] at hj'
        exact absurd hj' (by simp)
      · rw [Function.update_apply, if_neg hji] at hj'
        exact hrun j k hj'
  | releaseAll hready hsf =>
    refine ⟨hcount, ?_, fun i k _ => rfl⟩
    intro _
    refine ⟨hready, ?_⟩
    intro hm
    show (if measure = true then true else s.t0_captured) = true
    simp [hm]
  | wake i h hsf =>
    refine ⟨?_, hflag, ?_⟩
    · show s.ready
        = (Finset.univ.filter fun j =>
            Function.update s.phase i (PPhase.running 0) j ≠ PPhase.beforeReady).card
      rw [filter_update_stable s.phase i (PPhase.running 0) (by rw [h]; simp) (by simp)]
      exact hcount
    · intro j k hj
      exact hsf
  | logMsg i k h hk =>
    refine ⟨?_, hflag, ?_⟩
    · show s.ready
        = (Finset.univ.filter fun j =>
            Function.update s.phase i (PPhase.running (k + 1)) j ≠ PPhase.beforeReady).card
      rw [filter_update_stable s.phase i (PPhase.running (k + 1))
        (by rw [h]; simp) (by simp)]
      exact hcount
    · intro j k2 hj
      exact hrun i k h

theorem barrierInv_reachable (p : Nat) (measure : Bool) (quota : Fin p → Nat)
    (s : BarrierState p) (hreach : BReachable p measure quota s) :
    BarrierInv p measure s := by
  induction hreach with
  | refl => exact barrierInv_init p measure
  | tail _ hstep ih => exact barrierInv_step p measure quota _ _ ih hstep

/-- C3: in every reachable barrier state in which some producer has
entered its `begin`/`log` loop, the start flag is up, all `producers`
threads have incremented the ready counter, and — when
`measure_duration` is true — the start timestamp `t0` was captured
(the release step captures `t0` before raising the flag, and requires
`ready == producers`).  Hence no producer logs before every producer
signalled readiness and the controller released them. -/
theorem c3_barrier_release (p : Nat) (measure : Bool) (quota : Fin p → Nat)
    (s : BarrierState p) (hreach : BReachable p measure quota s)
    (i : Fin p) (k : Nat) (h : s.phase i = PPhase.running k) :
    s.start_flag = true ∧ s.ready = p
      ∧ (measure = true → s.t0_captured = true) := by
  obtain ⟨_, hflag, hrun⟩ := barrierInv_reachable p measure quota s hreach
  have hsf := hrun i k h
  obtain ⟨hrp, ht0⟩ := hflag hsf
  exact ⟨hsf, hrp, ht0⟩

theorem c3_reach_s3 : BReachable 1 true (fun _ => 1) c3S3 := by
  have h1 : BStep 1 true (fun _ => 1) (initBarrier 1) c3S1 :=
    BStep.signalReady (initBarrier 1) 0 rfl
  have h2 : BStep 1 true (fun _ => 1) c3S1 c3S2 :=
    BStep.releaseAll c3S1 rfl rfl
  have h3 : BStep 1 true (fun _ => 1) c3S2 c3S3 :=
    BStep.wake c3S2 0 (by decide) rfl
  exact Relation.ReflTransGen.tail
    (Relation.ReflTransGen.tail (Relation.ReflTransGen.single h1) h2) h3

/-- Witness for C3 at a concrete one-producer run that reached the log
loop. -/
theorem c3_witness :
    c3S3.start_flag = true ∧ c3S3.ready = 1
      ∧ (true = true → c3S3.t0_captured = true) :=
  c3_barrier_release 1 true (fun _ => 1) c3S3 c3_reach_s3 0 0 (by decide)

end LogitBench
